import Mathlib

/-!
Verification of the alarm reconciliation core of battery-input-manager
(src/user/clocks.c).

The registry `self->priv->alarms` is a GList of strings, embedded as
`List String` (g_list_append appends at the end, g_list_remove removes the
first matching node).  Calls to the external scheduling collaborator
(bim_bus_add_alarm / bim_bus_remove_alarm) are recorded as a trace of
`Notif` values.  An alarm record — a GVariant dictionary of type a{sv}
whose recognized values are strings — is embedded as an association list
`List (String × String)` iterated in order, exactly as the
g_variant_iter_next loop does.
-/

namespace Clocks

/-- Notification sent to the scheduling collaborator
(bim_bus_add_alarm / bim_bus_remove_alarm in src/user/clocks.c). -/
inductive Notif where
  | add (clock_id : String) (timestamp : Int)
  | remove (clock_id : String)
  deriving DecidableEq, Repr

/-- Identifier a notification is about. -/
def notifId : Notif → String
  | .add cid _ => cid
  | .remove cid => cid

/-- Decimal-digit accumulator used by the modelled timestamp parser. -/
def parseDigitsAux : List Char → Nat → Option Nat
  | [], acc => some acc
  | c :: rest, acc =>
    if '0' ≤ c ∧ c ≤ '9' then
      parseDigitsAux rest (acc * 10 + (c.toNat - 48))
    else none

/-- Modelled from the spec: g_date_time_new_from_iso8601 is GLib code, not
part of this repository.  Only parse success/failure and the resulting epoch
value matter to the claims, so the ISO-8601 parser is abstracted as decimal
parsing: a nonempty string of digits parses to that epoch value, anything
else is a parse failure (NULL GDateTime). -/
def parseIso8601 (s : String) : Option Int :=
  match s.data with
  | [] => none
  | c :: cs => (parseDigitsAux (c :: cs) 0).map (fun n => (n : Int))

/-- Modelled from the spec: g_date_time_to_unix is GLib code, not part of
this repository.  On a successfully parsed datetime it returns its epoch
seconds; on NULL (parse failure, which clocks.c never checks for) GLib's
precondition check fails and the call returns 0 — the embedding keeps that
recovery value, the C code risks undefined behavior there. -/
def toUnix : Option Int → Int
  | none => 0
  | some t => t

/-- add_alarm (src/user/clocks.c:32): append the id to the alarms list and
notify the bus with the timestamp. -/
def add_alarm (alarms : List String) (clock_id : String) (timestamp : Int) :
    List String × List Notif :=
  (alarms ++ [clock_id], [Notif.add clock_id timestamp])

/-- remove_alarm (src/user/clocks.c:44): remove the first occurrence of the
id from the alarms list, if any, and notify the bus unconditionally. -/
def remove_alarm (alarms : List String) (clock_id : String) :
    List String × List Notif :=
  (alarms.erase clock_id, [Notif.remove clock_id])

/-- One step of the dictionary-parsing loop of update_alarm
(src/user/clocks.c:74): a "ring_time" entry overwrites the ring_time
variable, an "id" entry overwrites the new_clock_id variable, anything else
is ignored.  The accumulator is the pair (new_clock_id, ring_time). -/
def parseStep (acc : Option String × Option String) (kv : String × String) :
    Option String × Option String :=
  if kv.1 = "ring_time" then (acc.1, some kv.2)
  else if kv.1 = "id" then (some kv.2, acc.2)
  else acc

/-- The whole dictionary-parsing loop of update_alarm
(src/user/clocks.c:73-82), starting from both variables NULL. -/
def parseAlarmFields (alarm : List (String × String)) :
    Option String × Option String :=
  alarm.foldl parseStep (none, none)

/-- update_alarm (src/user/clocks.c:62-105): parse the record; return
silently when no id was found; otherwise scan the alarms list for the id and
apply the decision table — unknown id with ring_time present: add (the
parse result of ring_time is not checked for failure); known id with
ring_time absent: remove; otherwise no-op. -/
def update_alarm (alarms : List String) (alarm : List (String × String)) :
    List String × List Notif :=
  match parseAlarmFields alarm with
  | (none, _) => (alarms, [])
  | (some new_clock_id, ring_time) =>
    match alarms.contains new_clock_id, ring_time with
    | false, some rt => add_alarm alarms new_clock_id (toUnix (parseIso8601 rt))
    | true, none => remove_alarm alarms new_clock_id
    | _, _ => (alarms, [])

/-- The snapshot loop of on_alarms_changed (src/user/clocks.c:145-149):
process each record in order, threading the alarms list and concatenating
the emitted notifications. -/
def processSnapshot (alarms : List String) :
    List (List (String × String)) → List String × List Notif
  | [] => (alarms, [])
  | alarm :: rest =>
    let step := update_alarm alarms alarm
    let next := processSnapshot step.1 rest
    (next.1, step.2 ++ next.2)

/-- on_alarms_changed (src/user/clocks.c:132-151): a NULL snapshot is
ignored, otherwise the snapshot is processed record by record. -/
def on_alarms_changed (alarms : List String)
    (snapshot : Option (List (List (String × String)))) :
    List String × List Notif :=
  match snapshot with
  | none => (alarms, [])
  | some records => processSnapshot alarms records

/-- Modelled from the spec: APP_ID comes from config.h, which is not under
src/; it is the fixed synthetic identifier shared by both fake alarms, and
only that role matters here. -/
def APP_ID : String := "APP_ID"

/-- add_fake_alarms (src/user/clocks.c:108-129): r1 and r2 stand for the
draws g_rand_int_range (rand, 30, 60) and g_rand_int_range (rand, 80, 120),
which lie in [30, 60) and [80, 120).  The function only talks to the bus;
the alarms list is neither read nor written. -/
def add_fake_alarms (now r1 r2 : Int) : List Notif :=
  [Notif.add APP_ID (now + r1), Notif.add APP_ID (now + r2)]

/-- clocks_connect_settings (src/user/clocks.c:154-170): with simulate set,
only the fake alarms are issued; otherwise the current snapshot is processed
once via on_alarms_changed. -/
def clocks_connect_settings (simulate : Bool) (alarms : List String)
    (now r1 r2 : Int)
    (snapshot : Option (List (List (String × String)))) :
    List String × List Notif :=
  if simulate then (alarms, add_fake_alarms now r1 r2)
  else on_alarms_changed alarms snapshot

/-- One step of the notification-replay fold: an add for this id makes it
active, a remove for this id makes it inactive, notifications about other
ids are ignored. -/
def activeStep (id : String) (act : Bool) : Notif → Bool
  | .add cid _ => if cid = id then true else act
  | .remove cid => if cid = id then false else act

/-- Whether, after the given notification trace, an add has been sent for
this id with no remove for it since. -/
def activeInTrace (trace : List Notif) (id : String) : Bool :=
  trace.foldl (activeStep id) false

/-- Restatement of the decision table of update_alarm over already-parsed
fields, for use in proofs. -/
def decisionTable (R : List String) (cid? rt? : Option String) :
    List String × List Notif :=
  match cid? with
  | none => (R, [])
  | some cid =>
    match R.contains cid, rt? with
    | false, some rt => add_alarm R cid (toUnix (parseIso8601 rt))
    | true, none => remove_alarm R cid
    | _, _ => (R, [])

/-! Helper lemmas about the embedding. -/

theorem contains_iff (l : List String) (a : String) : l.contains a = true ↔ a ∈ l :=
  List.elem_iff

theorem update_alarm_parsed (R : List String) (r : List (String × String))
    (cid? rt? : Option String) (hp : parseAlarmFields r = (cid?, rt?)) :
    update_alarm R r = decisionTable R cid? rt? := by
  unfold update_alarm decisionTable
  rw [hp]
  cases cid? <;> rfl

theorem foldl_parseStep_fst_of_no_id (l : List (String × String))
    (acc : Option String × Option String) (h : ∀ kv ∈ l, kv.1 ≠ "id") :
    (l.foldl parseStep acc).1 = acc.1 := by
  induction l generalizing acc with
  | nil => rfl
  | cons kv tl ih =>
    have hkv : kv.1 ≠ "id" := h kv (List.mem_cons_self _ _)
    have htl : ∀ x ∈ tl, x.1 ≠ "id" := fun x hx => h x (List.mem_cons_of_mem _ hx)
    simp only [List.foldl_cons]
    rw [ih _ htl]
    unfold parseStep
    by_cases h1 : kv.1 = "ring_time" <;> simp [h1, hkv]

theorem foldl_parseStep_snd_of_no_ring_time (l : List (String × String))
    (acc : Option String × Option String) (h : ∀ kv ∈ l, kv.1 ≠ "ring_time") :
    (l.foldl parseStep acc).2 = acc.2 := by
  induction l generalizing acc with
  | nil => rfl
  | cons kv tl ih =>
    have hkv : kv.1 ≠ "ring_time" := h kv (List.mem_cons_self _ _)
    have htl : ∀ x ∈ tl, x.1 ≠ "ring_time" := fun x hx => h x (List.mem_cons_of_mem _ hx)
    simp only [List.foldl_cons]
    rw [ih _ htl]
    unfold parseStep
    by_cases h2 : kv.1 = "id" <;> simp [hkv, h2]

theorem update_alarm_of_no_parsed_id (R : List String) (r : List (String × String))
    (hid : (parseAlarmFields r).1 = none) : update_alarm R r = (R, []) := by
  have hp : parseAlarmFields r = ((parseAlarmFields r).1, (parseAlarmFields r).2) := rfl
  rw [hid] at hp
  rw [update_alarm_parsed R r none (parseAlarmFields r).2 hp]
  rfl

theorem contains_false_of_not_mem (R : List String) (cid : String) (hm : cid ∉ R) :
    R.contains cid = false := by
  rw [← Bool.not_eq_true]
  intro h
  exact hm ((contains_iff R cid).mp h)

theorem update_alarm_add_case (R : List String) (r : List (String × String))
    (cid rt : String) (hp : parseAlarmFields r = (some cid, some rt))
    (hm : cid ∉ R) :
    update_alarm R r = (R ++ [cid], [Notif.add cid (toUnix (parseIso8601 rt))]) := by
  rw [update_alarm_parsed R r (some cid) (some rt) hp]
  have hc : R.contains cid = false := contains_false_of_not_mem R cid hm
  simp only [decisionTable, hc, add_alarm]

theorem update_alarm_remove_case (R : List String) (r : List (String × String))
    (cid : String) (hp : parseAlarmFields r = (some cid, none)) (hm : cid ∈ R) :
    update_alarm R r = (R.erase cid, [Notif.remove cid]) := by
  rw [update_alarm_parsed R r (some cid) none hp]
  have hc : R.contains cid = true := (contains_iff R cid).mpr hm
  simp only [decisionTable, hc, remove_alarm]

theorem update_alarm_noop_known (R : List String) (r : List (String × String))
    (cid rt : String) (hp : parseAlarmFields r = (some cid, some rt))
    (hm : cid ∈ R) : update_alarm R r = (R, []) := by
  rw [update_alarm_parsed R r (some cid) (some rt) hp]
  have hc : R.contains cid = true := (contains_iff R cid).mpr hm
  simp only [decisionTable, hc]

theorem update_alarm_noop_unknown (R : List String) (r : List (String × String))
    (cid : String) (hp : parseAlarmFields r = (some cid, none))
    (hm : cid ∉ R) : update_alarm R r = (R, []) := by
  rw [update_alarm_parsed R r (some cid) none hp]
  have hc : R.contains cid = false := contains_false_of_not_mem R cid hm
  simp only [decisionTable, hc]

theorem update_alarm_count_other (R : List String) (r : List (String × String))
    (x : String) (h : (parseAlarmFields r).1 ≠ some x) :
    ((update_alarm R r).1).count x = R.count x := by
  rcases hq : parseAlarmFields r with ⟨cid?, rt?⟩
  rw [hq] at h
  cases cid? with
  | none => rw [update_alarm_of_no_parsed_id R r (by rw [hq])]
  | some cid =>
    have hne : x ≠ cid := fun he => h (by rw [he])
    by_cases hm : cid ∈ R
    · cases rt? with
      | none =>
        rw [update_alarm_remove_case R r cid hq hm]
        exact List.count_erase_of_ne hne R
      | some rt => rw [update_alarm_noop_known R r cid rt hq hm]
    · cases rt? with
      | none => rw [update_alarm_noop_unknown R r cid hq hm]
      | some rt =>
        rw [update_alarm_add_case R r cid rt hq hm]
        simp [List.count_append, List.count_singleton', hne]

theorem update_alarm_nodup (R : List String) (r : List (String × String))
    (h : R.Nodup) : ((update_alarm R r).1).Nodup := by
  rcases hq : parseAlarmFields r with ⟨cid?, rt?⟩
  cases cid? with
  | none => rw [update_alarm_of_no_parsed_id R r (by rw [hq])]; exact h
  | some cid =>
    by_cases hm : cid ∈ R
    · cases rt? with
      | none => rw [update_alarm_remove_case R r cid hq hm]; exact h.erase cid
      | some rt => rw [update_alarm_noop_known R r cid rt hq hm]; exact h
    · cases rt? with
      | none => rw [update_alarm_noop_unknown R r cid hq hm]; exact h
      | some rt =>
        rw [update_alarm_add_case R r cid rt hq hm]
        show (R ++ [cid]).Nodup
        rw [← List.concat_eq_append]
        exact List.Nodup.concat hm h

theorem update_alarm_notif_ids (R : List String) (r : List (String × String))
    (n : Notif) (hn : n ∈ (update_alarm R r).2) :
    (parseAlarmFields r).1 = some (notifId n) := by
  rcases hq : parseAlarmFields r with ⟨cid?, rt?⟩
  cases cid? with
  | none => rw [update_alarm_of_no_parsed_id R r (by rw [hq])] at hn; cases hn
  | some cid =>
    by_cases hm : cid ∈ R
    · cases rt? with
      | none =>
        rw [update_alarm_remove_case R r cid hq hm] at hn
        simp only [List.mem_singleton] at hn
        subst hn
        rfl
      | some rt => rw [update_alarm_noop_known R r cid rt hq hm] at hn; cases hn
    · cases rt? with
      | none => rw [update_alarm_noop_unknown R r cid hq hm] at hn; cases hn
      | some rt =>
        rw [update_alarm_add_case R r cid rt hq hm] at hn
        simp only [List.mem_singleton] at hn
        subst hn
        rfl

theorem processSnapshot_cons (R : List String) (r : List (String × String))
    (rest : List (List (String × String))) :
    processSnapshot R (r :: rest) =
      ((processSnapshot (update_alarm R r).1 rest).1,
       (update_alarm R r).2 ++ (processSnapshot (update_alarm R r).1 rest).2) := rfl

theorem processSnapshot_append (R : List String)
    (S1 S2 : List (List (String × String))) :
    processSnapshot R (S1 ++ S2) =
      ((processSnapshot (processSnapshot R S1).1 S2).1,
       (processSnapshot R S1).2 ++ (processSnapshot (processSnapshot R S1).1 S2).2) := by
  induction S1 generalizing R with
  | nil => simp [processSnapshot]
  | cons r tl ih =>
    simp only [List.cons_append, processSnapshot_cons, ih, List.append_assoc]

theorem processSnapshot_count_other (R : List String)
    (S : List (List (String × String))) (x : String)
    (h : ∀ r ∈ S, (parseAlarmFields r).1 ≠ some x) :
    ((processSnapshot R S).1).count x = R.count x := by
  induction S generalizing R with
  | nil => rfl
  | cons r tl ih =>
    rw [processSnapshot_cons]
    have h1 := update_alarm_count_other R r x (h r (List.mem_cons_self _ _))
    have h2 := ih (update_alarm R r).1 (fun r' hr' => h r' (List.mem_cons_of_mem _ hr'))
    exact h2.trans h1

theorem processSnapshot_nodup (R : List String)
    (S : List (List (String × String))) (h : R.Nodup) :
    ((processSnapshot R S).1).Nodup := by
  induction S generalizing R with
  | nil => exact h
  | cons r tl ih =>
    rw [processSnapshot_cons]
    exact ih (update_alarm R r).1 (update_alarm_nodup R r h)

theorem processSnapshot_settled (R : List String)
    (S : List (List (String × String)))
    (h : ∀ r ∈ S, update_alarm R r = (R, [])) :
    processSnapshot R S = (R, []) := by
  induction S with
  | nil => rfl
  | cons r tl ih =>
    rw [processSnapshot_cons, h r (List.mem_cons_self _ _)]
    rw [ih (fun r' hr' => h r' (List.mem_cons_of_mem _ hr'))]
    rfl

theorem processSnapshot_notif_other (R : List String)
    (S : List (List (String × String))) (x : String)
    (h : ∀ r ∈ S, (parseAlarmFields r).1 ≠ some x) :
    ∀ n ∈ (processSnapshot R S).2, notifId n ≠ x := by
  induction S generalizing R with
  | nil => intro n hn; cases hn
  | cons r tl ih =>
    intro n hn
    rw [processSnapshot_cons] at hn
    rcases List.mem_append.mp hn with hn1 | hn2
    · have := update_alarm_notif_ids R r n hn1
      intro he
      exact h r (List.mem_cons_self _ _) (by rw [this, he])
    · exact ih (update_alarm R r).1
        (fun r' hr' => h r' (List.mem_cons_of_mem _ hr')) n hn2

theorem activeInTrace_append (T T2 : List Notif) (x : String) :
    activeInTrace (T ++ T2) x = T2.foldl (activeStep x) (activeInTrace T x) :=
  List.foldl_append _ _ _ _

theorem sync_step (R : List String) (T : List Notif) (r : List (String × String))
    (hN : R.Nodup)
    (hI : ∀ x, x ∈ R ↔ activeInTrace T x = true) :
    ∀ x, x ∈ (update_alarm R r).1 ↔
      activeInTrace (T ++ (update_alarm R r).2) x = true := by
  intro x
  rcases hq : parseAlarmFields r with ⟨cid?, rt?⟩
  cases cid? with
  | none =>
    rw [update_alarm_of_no_parsed_id R r (by rw [hq])]
    simpa using hI x
  | some cid =>
    by_cases hm : cid ∈ R
    · cases rt? with
      | none =>
        rw [update_alarm_remove_case R r cid hq hm, activeInTrace_append]
        simp only [List.foldl_cons, List.foldl_nil, activeStep]
        by_cases hx : cid = x
        · subst hx
          simp only [if_pos rfl]
          constructor
          · intro hmem
            exact (((hN.mem_erase_iff).mp hmem).1 rfl).elim
          · intro hfalse
            cases hfalse
        · rw [if_neg hx, List.mem_erase_of_ne (fun he => hx he.symm)]
          exact hI x
      | some rt =>
        rw [update_alarm_noop_known R r cid rt hq hm]
        simpa using hI x
    · cases rt? with
      | none =>
        rw [update_alarm_noop_unknown R r cid hq hm]
        simpa using hI x
      | some rt =>
        rw [update_alarm_add_case R r cid rt hq hm, activeInTrace_append]
        simp only [List.foldl_cons, List.foldl_nil, activeStep]
        by_cases hx : cid = x
        · subst hx
          simp
        · rw [if_neg hx, List.mem_append]
          simp only [List.mem_singleton]
          constructor
          · intro hca
            rcases hca with hR | hx1
            · exact (hI x).mp hR
            · exact absurd hx1.symm hx
          · intro ha
            exact Or.inl ((hI x).mpr ha)

theorem sync_snapshot (S : List (List (String × String)))
    (R : List String) (T : List Notif) (hN : R.Nodup)
    (hI : ∀ x, x ∈ R ↔ activeInTrace T x = true) :
    ∀ x, x ∈ (processSnapshot R S).1 ↔
      activeInTrace (T ++ (processSnapshot R S).2) x = true := by
  induction S generalizing R T with
  | nil =>
    intro x
    simpa [processSnapshot] using hI x
  | cons r tl ih =>
    intro x
    rw [processSnapshot_cons]
    have h1 := sync_step R T r hN hI
    have hN' := update_alarm_nodup R r hN
    have h2 := ih (update_alarm R r).1 (T ++ (update_alarm R r).2) hN' h1 x
    simpa [List.append_assoc] using h2

theorem processSnapshot_singleton (R : List String) (r : List (String × String)) :
    processSnapshot R [r] = ((update_alarm R r).1, (update_alarm R r).2) := by
  rw [processSnapshot_cons]
  simp [processSnapshot]

theorem settled_after (S : List (List (String × String))) :
    ∀ R : List String, R.Nodup →
      (S.filterMap (fun r => (parseAlarmFields r).1)).Nodup →
      ∀ r ∈ S, update_alarm (processSnapshot R S).1 r = ((processSnapshot R S).1, []) := by
  induction S with
  | nil =>
    intro R _ _ r hr
    cases hr
  | cons r0 tl ih =>
    intro R hR hS r hr
    have hR' : ((update_alarm R r0).1).Nodup := update_alarm_nodup R r0 hR
    rcases hq : parseAlarmFields r0 with ⟨cid?, rt?⟩
    cases cid? with
    | none =>
      simp only [List.filterMap_cons, hq] at hS
      rcases List.mem_cons.mp hr with hr0 | hrtl
      · rw [hr0]
        exact update_alarm_of_no_parsed_id _ r0 (by rw [hq])
      · rw [processSnapshot_cons]
        exact ih (update_alarm R r0).1 hR' hS r hrtl
    | some cid =>
      simp only [List.filterMap_cons, hq] at hS
      rw [List.nodup_cons] at hS
      obtain ⟨hnotin, hStl⟩ := hS
      have hne_tl : ∀ r' ∈ tl, (parseAlarmFields r').1 ≠ some cid := by
        intro r' hr' he
        exact hnotin (List.mem_filterMap.mpr ⟨r', hr', he⟩)
      rcases List.mem_cons.mp hr with hr0 | hrtl
      · rw [hr0, processSnapshot_cons]
        have hcount_pres :=
          processSnapshot_count_other (update_alarm R r0).1 tl cid hne_tl
        cases rt? with
        | some rts =>
          have hmem' : cid ∈ (update_alarm R r0).1 := by
            by_cases hm : cid ∈ R
            · rw [update_alarm_noop_known R r0 cid rts hq hm]
              exact hm
            · rw [update_alarm_add_case R r0 cid rts hq hm]
              exact List.mem_append_right R (List.mem_singleton.mpr rfl)
          have hmemF : cid ∈ (processSnapshot (update_alarm R r0).1 tl).1 := by
            have hpos : 0 < ((update_alarm R r0).1).count cid :=
              List.count_pos_iff.mpr hmem'
            rw [← hcount_pres] at hpos
            exact List.count_pos_iff.mp hpos
          exact update_alarm_noop_known _ r0 cid rts hq hmemF
        | none =>
          have hmem' : cid ∉ (update_alarm R r0).1 := by
            by_cases hm : cid ∈ R
            · rw [update_alarm_remove_case R r0 cid hq hm]
              intro hmem
              exact ((hR.mem_erase_iff).mp hmem).1 rfl
            · rw [update_alarm_noop_unknown R r0 cid hq hm]
              exact hm
          have hmemF : cid ∉ (processSnapshot (update_alarm R r0).1 tl).1 := by
            intro hmem
            have hpos := List.count_pos_iff.mpr hmem
            rw [hcount_pres] at hpos
            exact hmem' (List.count_pos_iff.mp hpos)
          exact update_alarm_noop_unknown _ r0 cid hq hmemF
      · rw [processSnapshot_cons]
        exact ih (update_alarm R r0).1 hR' hStl r hrtl

/-! Claims. -/

/-- C1: registry/notification synchrony — starting from the empty registry,
after any sequence of update_alarm calls the alarms list contains exactly
the identifiers for which an add_alarm notification has been sent and no
remove_alarm notification has been sent since. -/
theorem registry_trace_sync (S : List (List (String × String))) (x : String) :
    x ∈ (processSnapshot [] S).1 ↔
      activeInTrace (processSnapshot [] S).2 x = true := by
  have h0 : ∀ y : String, y ∈ ([] : List String) ↔ activeInTrace [] y = true := by
    intro y
    simp [activeInTrace]
  have h := sync_snapshot S [] [] List.nodup_nil h0 x
  simpa using h

/-- C2: for every record carrying an id, update_alarm implements exactly the
two-state machine — unknown id with ring_time present (and parseable): the
id is appended and one add_alarm with the parsed epoch is sent; known id
with ring_time absent: the id is removed and one remove_alarm is sent;
unknown id with ring_time absent and known id with ring_time present:
registry unchanged and no notification. -/
theorem update_alarm_state_machine (R : List String) (r : List (String × String))
    (cid : String) (rt? : Option String)
    (hp : parseAlarmFields r = (some cid, rt?)) :
    (cid ∉ R → ∀ rts t, rt? = some rts → parseIso8601 rts = some t →
        update_alarm R r = (R ++ [cid], [Notif.add cid t])) ∧
    (cid ∈ R → rt? = none → update_alarm R r = (R.erase cid, [Notif.remove cid])) ∧
    (cid ∉ R → rt? = none → update_alarm R r = (R, [])) ∧
    (cid ∈ R → ∀ rts, rt? = some rts → update_alarm R r = (R, [])) := by
  refine ⟨?_, ?_, ?_, ?_⟩
  · intro hm rts t hrt hpt
    subst hrt
    rw [update_alarm_add_case R r cid rts hp hm, hpt]
    rfl
  · intro hm hrt
    subst hrt
    exact update_alarm_remove_case R r cid hp hm
  · intro hm hrt
    subst hrt
    exact update_alarm_noop_unknown R r cid hp hm
  · intro hm rts hrt
    subst hrt
    exact update_alarm_noop_known R r cid rts hp hm

theorem update_alarm_state_machine_witness :
    update_alarm [] [("id", "a"), ("ring_time", "100")] = (["a"], [Notif.add "a" 100]) :=
  (update_alarm_state_machine [] [("id", "a"), ("ring_time", "100")] "a" (some "100")
      rfl).1 (by simp) "100" 100 rfl rfl

/-- C3: code-bug evidence — on a record with an unknown id and a present but
unparseable ring_time, update_alarm does not skip the add transition: the id
is appended to the registry and an add_alarm notification is sent carrying
the conversion of the failed parse (toUnix none, GLib would be handed a NULL
GDateTime here). -/
theorem malformed_ring_time_add_executed :
    parseIso8601 "not-a-timestamp" = none ∧
    update_alarm [] [("id", "x"), ("ring_time", "not-a-timestamp")] =
      (["x"], [Notif.add "x" (toUnix none)]) :=
  ⟨rfl, rfl⟩

/-- C6: starting from the empty registry, any sequence of update_alarm calls
leaves the alarms list free of duplicate identifiers. -/
theorem known_ids_nodup (S : List (List (String × String))) :
    ((processSnapshot [] S).1).Nodup :=
  processSnapshot_nodup [] S List.nodup_nil

/-- C7: a record whose id is unknown and whose ring_time is absent is a
no-op — registry unchanged, no notification. -/
theorem unknown_id_removal_noop (R : List String) (r : List (String × String))
    (cid : String) (hp : parseAlarmFields r = (some cid, none)) (hm : cid ∉ R) :
    update_alarm R r = (R, []) :=
  update_alarm_noop_unknown R r cid hp hm

theorem unknown_id_removal_noop_witness :
    update_alarm ["b"] [("id", "a")] = (["b"], []) :=
  unknown_id_removal_noop ["b"] [("id", "a")] "a" rfl (by simp)

/-- C8: a record whose dictionary has no "id" entry is discarded silently —
registry unchanged, no notification — and the rest of the snapshot is
processed as if the record were not there. -/
theorem missing_id_record_skipped (R : List String) (r : List (String × String))
    (rest : List (List (String × String))) (h : ∀ kv ∈ r, kv.1 ≠ "id") :
    update_alarm R r = (R, []) ∧
    processSnapshot R (r :: rest) = processSnapshot R rest := by
  have hid : (parseAlarmFields r).1 = none := foldl_parseStep_fst_of_no_id r (none, none) h
  have h1 : update_alarm R r = (R, []) := update_alarm_of_no_parsed_id R r hid
  refine ⟨h1, ?_⟩
  rw [processSnapshot_cons, h1]
  simp

theorem missing_id_record_skipped_witness :
    update_alarm ["z"] [("ring_time", "100"), ("foo", "bar")] = (["z"], []) ∧
    processSnapshot ["z"]
        [[("ring_time", "100"), ("foo", "bar")], [("id", "a"), ("ring_time", "7")]] =
      processSnapshot ["z"] [[("id", "a"), ("ring_time", "7")]] :=
  missing_id_record_skipped ["z"] [("ring_time", "100"), ("foo", "bar")]
    [[("id", "a"), ("ring_time", "7")]] (by decide)

/-- C9: with simulate set, connecting issues exactly two add_alarm calls,
both for the fixed identifier APP_ID, at the current time plus the two
random offsets (drawn from [30, 60) and [80, 120), so the second time is
strictly greater), and the alarms registry is left untouched. -/
theorem simulate_mode_two_adds (alarms : List String) (now r1 r2 : Int)
    (snapshot : Option (List (List (String × String))))
    (h1 : 30 ≤ r1) (h2 : r1 < 60) (h3 : 80 ≤ r2) (h4 : r2 < 120) :
    clocks_connect_settings true alarms now r1 r2 snapshot =
      (alarms, [Notif.add APP_ID (now + r1), Notif.add APP_ID (now + r2)]) ∧
    now + r1 < now + r2 := by
  constructor
  · rfl
  · omega

theorem simulate_mode_two_adds_witness :
    clocks_connect_settings true ["x"] 1000 45 90 none =
      (["x"], [Notif.add APP_ID (1000 + 45), Notif.add APP_ID (1000 + 90)]) ∧
    (1000 : Int) + 45 < 1000 + 90 :=
  simulate_mode_two_adds ["x"] 1000 45 90 none (by decide) (by decide) (by decide)
    (by decide)

/-- C10: when a record dictionary holds several "id" (or several
"ring_time") entries, the value parsed by update_alarm is the one of the
last such entry in iteration order — later entries overwrite earlier
ones. -/
theorem duplicate_key_last_wins (pre post pre2 post2 : List (String × String))
    (v w : String)
    (hpost : ∀ kv ∈ post, kv.1 ≠ "id")
    (hpost2 : ∀ kv ∈ post2, kv.1 ≠ "ring_time") :
    (parseAlarmFields (pre ++ ("id", v) :: post)).1 = some v ∧
    (parseAlarmFields (pre2 ++ ("ring_time", w) :: post2)).2 = some w := by
  constructor
  · unfold parseAlarmFields
    rw [List.foldl_append, List.foldl_cons,
      foldl_parseStep_fst_of_no_id post _ hpost]
    simp [parseStep]
  · unfold parseAlarmFields
    rw [List.foldl_append, List.foldl_cons,
      foldl_parseStep_snd_of_no_ring_time post2 _ hpost2]
    simp [parseStep]

theorem duplicate_key_last_wins_witness :
    (parseAlarmFields [("id", "first"), ("id", "second"), ("ring_time", "8")]).1 =
      some "second" ∧
    (parseAlarmFields [("ring_time", "7"), ("ring_time", "9")]).2 = some "9" :=
  duplicate_key_last_wins [("id", "first")] [("ring_time", "8")] [("ring_time", "7")] []
    "second" "9" (by decide) (by simp)

/-- C4: counterexample to idempotence as stated for every snapshot of
well-formed records — a snapshot repeating one id (an add record then a
delete record for the same id) re-emits notifications when applied a second
time starting from the registry the first application produced. -/
theorem snapshot_idem_cex :
    (processSnapshot
        (processSnapshot [] [[("id", "a"), ("ring_time", "100")], [("id", "a")]]).1
        [[("id", "a"), ("ring_time", "100")], [("id", "a")]]).2 ≠ [] := by
  decide

/-- C4 (amended): for snapshots whose records carry pairwise-distinct parsed
ids (the data model declares id unique within a snapshot) and a
duplicate-free starting registry, re-applying the snapshot leaves the
registry exactly as after the first application and emits no
notifications. -/
theorem snapshot_idem_distinct_ids (R : List String)
    (S : List (List (String × String))) (hR : R.Nodup)
    (hS : (S.filterMap (fun r => (parseAlarmFields r).1)).Nodup) :
    processSnapshot (processSnapshot R S).1 S = ((processSnapshot R S).1, []) :=
  processSnapshot_settled _ S (settled_after S R hR hS)

theorem snapshot_idem_distinct_ids_witness :
    processSnapshot
        (processSnapshot ["b"] [[("id", "a"), ("ring_time", "3")], [("id", "b")]]).1
        [[("id", "a"), ("ring_time", "3")], [("id", "b")]] =
      ((processSnapshot ["b"] [[("id", "a"), ("ring_time", "3")], [("id", "b")]]).1,
        []) :=
  snapshot_idem_distinct_ids ["b"] [[("id", "a"), ("ring_time", "3")], [("id", "b")]]
    (by decide) (by decide)

/-- C5: add/remove symmetry — from a registry not containing the id,
processing a record with that id and a parseable ring_time, then any
records for other ids, then a record with that id and ring_time absent,
leaves the registry without the id, and the notifications concerning that
id are exactly one add_alarm followed by one remove_alarm. -/
theorem add_remove_symmetry (R : List String) (r0 rlast : List (String × String))
    (mid : List (List (String × String))) (cid rts : String) (t : Int)
    (hR : cid ∉ R)
    (h0 : parseAlarmFields r0 = (some cid, some rts))
    (ht : parseIso8601 rts = some t)
    (hlast : parseAlarmFields rlast = (some cid, none))
    (hmid : ∀ r ∈ mid, (parseAlarmFields r).1 ≠ some cid) :
    cid ∉ (processSnapshot R (r0 :: (mid ++ [rlast]))).1 ∧
    (processSnapshot R (r0 :: (mid ++ [rlast]))).2.filter
        (fun n => notifId n == cid) = [Notif.add cid t, Notif.remove cid] := by
  have hstep0 : update_alarm R r0 = (R ++ [cid], [Notif.add cid t]) := by
    rw [update_alarm_add_case R r0 cid rts h0 hR, ht]
    rfl
  have hcount1 : (R ++ [cid]).count cid = 1 := by
    simp [List.count_append, List.count_eq_zero.mpr hR]
  have hcountM : ((processSnapshot (R ++ [cid]) mid).1).count cid = 1 := by
    rw [processSnapshot_count_other (R ++ [cid]) mid cid hmid]
    exact hcount1
  have hmemM : cid ∈ (processSnapshot (R ++ [cid]) mid).1 :=
    List.count_pos_iff.mp (by rw [hcountM]; exact Nat.one_pos)
  have hstepLast : update_alarm (processSnapshot (R ++ [cid]) mid).1 rlast =
      (((processSnapshot (R ++ [cid]) mid).1).erase cid, [Notif.remove cid]) :=
    update_alarm_remove_case _ rlast cid hlast hmemM
  have hcountF : ((((processSnapshot (R ++ [cid]) mid).1).erase cid)).count cid = 0 := by
    rw [List.count_erase_self, hcountM]
  have hmemF : cid ∉ (((processSnapshot (R ++ [cid]) mid).1).erase cid) :=
    List.count_eq_zero.mp hcountF
  have hfull : processSnapshot R (r0 :: (mid ++ [rlast])) =
      ((((processSnapshot (R ++ [cid]) mid).1).erase cid),
        [Notif.add cid t] ++
          ((processSnapshot (R ++ [cid]) mid).2 ++ [Notif.remove cid])) := by
    rw [processSnapshot_cons, hstep0]
    dsimp only
    rw [processSnapshot_append, processSnapshot_singleton, hstepLast]
  have hmidtrace : ∀ n ∈ (processSnapshot (R ++ [cid]) mid).2, notifId n ≠ cid :=
    processSnapshot_notif_other (R ++ [cid]) mid cid hmid
  constructor
  · rw [hfull]
    exact hmemF
  · rw [hfull]
    have hnil : List.filter (fun n => notifId n == cid)
        (processSnapshot (R ++ [cid]) mid).2 = [] :=
      List.filter_eq_nil_iff.mpr (fun n hn => by simpa using hmidtrace n hn)
    simp only [List.filter_append, hnil]
    simp [notifId]

theorem add_remove_symmetry_witness :
    "a" ∉ (processSnapshot []
        ([("id", "a"), ("ring_time", "5")] :: ([] ++ [[("id", "a")]]))).1 ∧
    (processSnapshot []
        ([("id", "a"), ("ring_time", "5")] :: ([] ++ [[("id", "a")]]))).2.filter
        (fun n => notifId n == "a") = [Notif.add "a" 5, Notif.remove "a"] :=
  add_remove_symmetry [] [("id", "a"), ("ring_time", "5")] [("id", "a")] [] "a" "5" 5
    (by simp) rfl rfl rfl (by simp)

end Clocks
